import Mathlib

/-
  Verification development for the GazeTracking on-screen keyboard engine.

  The definitions below are a shallow embedding of the Bayesian gaze
  decision engine in src/GazeTracking.tsx: key layout, per-key runtime
  state, the per-frame tick pipeline (out-of-bounds gate, velocity
  classification, likelihood, posterior, hysteresis, interest
  accumulation, selection trigger) and the selection-time prior update.
  JavaScript floating-point numbers are modelled by real numbers.
-/

set_option maxHeartbeats 1000000

noncomputable section

open Classical in
noncomputable instance (priority := low) instPropDecidableGaze (p : Prop) : Decidable p :=
  Classical.propDecidable p

/-- Key definition, from constants/index.ts KEY_LAYOUT. Only the fields the
engine reads are kept: id, the special flag and the role tag. -/
structure KeyDef where
  id : String
  special : Bool
  role : Option String
deriving DecidableEq

/-- The flattened key list ALL_KEYS = KEY_LAYOUT.flat() from constants/index.ts. -/
def ALL_KEYS : List KeyDef :=
  [⟨"row1-1", false, none⟩, ⟨"row1-2", false, none⟩, ⟨"row1-3", false, none⟩,
   ⟨"row1-4", false, none⟩, ⟨"row1-5", false, none⟩, ⟨"row1-6", false, none⟩,
   ⟨"row1-7", false, none⟩, ⟨"row1-8", false, none⟩, ⟨"row1-9", false, none⟩,
   ⟨"row1-0", false, none⟩,
   ⟨"r2-q", false, none⟩, ⟨"r2-w", false, none⟩, ⟨"r2-e", false, none⟩,
   ⟨"r2-r", false, none⟩, ⟨"r2-t", false, none⟩, ⟨"r2-y", false, none⟩,
   ⟨"r2-u", false, none⟩, ⟨"r2-i", false, none⟩, ⟨"r2-o", false, none⟩,
   ⟨"r2-p", false, none⟩,
   ⟨"r3-a", false, none⟩, ⟨"r3-s", false, none⟩, ⟨"r3-d", false, none⟩,
   ⟨"r3-f", false, none⟩, ⟨"r3-g", false, none⟩, ⟨"r3-h", false, none⟩,
   ⟨"r3-j", false, none⟩, ⟨"r3-k", false, none⟩, ⟨"r3-l", false, none⟩,
   ⟨"r3-back", true, none⟩,
   ⟨"r4-z", false, none⟩, ⟨"r4-x", false, none⟩, ⟨"r4-c", false, none⟩,
   ⟨"r4-v", false, none⟩, ⟨"r4-b", false, none⟩, ⟨"r4-n", false, none⟩,
   ⟨"r4-m", false, none⟩, ⟨"r4-enter", true, none⟩,
   ⟨"r5-space-left", true, some ("space-left")⟩,
   ⟨"r5-space-suggest", true, some ("space-suggest")⟩]

/-- A cached client rectangle of a key, as returned by getBoundingClientRect. -/
structure Rect where
  left : ℝ
  top : ℝ
  width : ℝ
  height : ℝ

def Rect.right (r : Rect) : ℝ := r.left + r.width

def Rect.bottom (r : Rect) : ℝ := r.top + r.height

/-- Per-key runtime state (KeyState in the source). -/
structure KeyState where
  interest : ℝ
  selectionCount : ℕ
  prior : ℝ
  rect : Option Rect
  lastPosterior : ℝ

/-- The engine's mutable state outside the per-key records: the refs used by
the tick loop plus the published active key. -/
structure EngineState where
  keys : String → KeyState
  previousActiveKey : Option String
  dwellStart : Option ℝ
  fixationStart : Option ℝ
  isFixating : Prop
  smoothedVelocity : ℝ
  lastGaze : Option (ℝ × ℝ × ℝ)
  lastFrameTime : ℝ
  activeKeyId : Option String

-- Engine constants from the top of GazeTracking.tsx.

def SELECTION_THRESHOLD : ℝ := 0.6
def PRIOR_K : ℝ := 1.0
def SPECIAL_KEY_LIKELIHOOD_BOOST : ℝ := 0.75
def SPECIAL_KEY_MIN_PRIOR : ℝ := 0.75
def ACTIVE_KEY_SIGMA_EXPANSION : ℝ := 1.5
def HYSTERESIS_THRESHOLD : ℝ := 0.12
def MIN_DWELL_BEFORE_SWITCH : ℝ := 0.08
def VELOCITY_THRESHOLD : ℝ := 300
def VELOCITY_SMOOTHING_ALPHA : ℝ := 0.3
def MIN_FIXATION_DURATION : ℝ := 0.12
def MIN_POSTERIOR_FOR_FEEDBACK : ℝ := 0.15

/-- The 1e-10 floor applied to the weighted likelihood sum. -/
def EPS : ℝ := 1 / 10 ^ 10

/-- Lookup of the key definition with a given id, as ALL_KEYS.find does in
the source. -/
def lookupKey (k : String) : Option KeyDef := ALL_KEYS.find? (fun d => d.id == k)

/-- A string is a key id iff ALL_KEYS contains a key with that id. -/
def isKeyId (k : String) : Bool := (lookupKey k).isSome

/-- Apply an update to every key of the keyboard, as ALL_KEYS.forEach does:
ids that are not on the keyboard are left untouched. -/
def overKeys (ks : String → KeyState) (f : KeyDef → KeyState → KeyState) :
    String → KeyState :=
  fun k =>
    match lookupKey k with
    | some d => f d (ks k)
    | none => ks k

/-- Initial per-key state: uniform priors 1 / N, zero interest and counts,
no cached rectangle (the key-state initialization effect). -/
def initKeys : String → KeyState :=
  fun _ => ⟨0, 0, 1 / (ALL_KEYS.length : ℝ), none, 0⟩

/-- The engine state right after initialization. -/
def initState : EngineState :=
  ⟨initKeys, none, none, none, False, 0, none, 0, none⟩

/-- Sum of all selection counts over the keyboard (the sumCounts loop in
triggerSelection). -/
def sumCounts (ks : String → KeyState) : ℕ :=
  (ALL_KEYS.map (fun d => (ks d.id).selectionCount)).sum

/-- First effect of a selection: the selected key's interest is zeroed and
its selection count incremented. -/
def selectIncrement (ks : String → KeyState) (id : String) : String → KeyState :=
  fun k =>
    if k = id then
      { ks k with interest := 0, selectionCount := (ks k).selectionCount + 1 }
    else ks k

/-- Second effect of a selection: every other key's interest is damped by
a factor 0.5. -/
def dampOthers (ks : String → KeyState) (id : String) : String → KeyState :=
  overKeys ks (fun d s =>
    if d.id ≠ id then { s with interest := s.interest * 0.5 } else s)

/-- Third effect of a selection: every key's prior is recomputed as
(k + selectionCount) / (k * N + sum of all selection counts), using the
current (post-increment) counts. -/
def recomputePriors (ks : String → KeyState) : String → KeyState :=
  overKeys ks (fun _ s =>
    { s with prior := (PRIOR_K + (s.selectionCount : ℝ)) /
        (PRIOR_K * (ALL_KEYS.length : ℝ) + (sumCounts ks : ℝ)) })

/-- The selection handler triggerSelection: zero the selected key's interest,
increment its selection count, reset tracking state, damp all other keys'
interest by 0.5, then recompute every key's prior from the post-increment
counts. -/
def triggerSelection (st : EngineState) (id : String) : EngineState :=
  { st with
      keys := recomputePriors (dampOthers (selectIncrement st.keys id) id)
      previousActiveKey := none
      fixationStart := none
      isFixating := False
      dwellStart := none }

-- ================================================================
-- The per-frame tick pipeline.
-- ================================================================

/-- First key of the layout, ALL_KEYS[0].id, used by the keyboard-bounds gate. -/
def firstKeyId : String :=
  match ALL_KEYS with
  | d :: _ => d.id
  | [] => ""

/-- Last key of the layout, ALL_KEYS[ALL_KEYS.length - 1].id. -/
def lastKeyId : String :=
  match ALL_KEYS.getLast? with
  | some d => d.id
  | none => ""

/-- Keyboard-bounds gate: the bounding box of the first and last keys' cached
rectangles, expanded by a 50 px margin; false whenever either extreme key has
no cached rectangle. -/
def gazeOnKeyboard (ks : String → KeyState) (g : ℝ × ℝ) : Prop :=
  match (ks firstKeyId).rect, (ks lastKeyId).rect with
  | some fr, some lr =>
      g.1 ≥ min fr.left lr.left - 50 ∧ g.1 ≤ max fr.right lr.right + 50 ∧
      g.2 ≥ min fr.top lr.top - 50 ∧ g.2 ≤ max fr.bottom lr.bottom + 50
  | _, _ => False

/-- Set every key's interest to 0 (the out-of-bounds reset loop). -/
def zeroInterests (ks : String → KeyState) : String → KeyState :=
  overKeys ks (fun _ s => { s with interest := 0 })

/-- Set one key's interest to 0. -/
def zeroInterestOf (c : String) (ks : String → KeyState) : String → KeyState :=
  fun k => if k = c then { ks k with interest := 0 } else ks k

/-- The velocity reported this frame: smoothed velocity when a previous gaze
point exists and time advanced, else 0. -/
def currentVelocityAfter (now : ℝ) (g : ℝ × ℝ) (lastGaze : Option (ℝ × ℝ × ℝ))
    (prevV : ℝ) : ℝ :=
  match lastGaze with
  | none => 0
  | some l =>
      let dt := (now - l.2.2) / 1000
      if dt > 0 then
        VELOCITY_SMOOTHING_ALPHA *
            (Real.sqrt ((g.1 - l.1) ^ 2 + (g.2 - l.2.1) ^ 2) / dt) +
          (1 - VELOCITY_SMOOTHING_ALPHA) * prevV
      else 0

/-- The smoothed-velocity ref after this frame: updated only when a previous
gaze point exists and time advanced. -/
def smoothedVelocityAfter (now : ℝ) (g : ℝ × ℝ) (lastGaze : Option (ℝ × ℝ × ℝ))
    (prevV : ℝ) : ℝ :=
  match lastGaze with
  | none => prevV
  | some l =>
      let dt := (now - l.2.2) / 1000
      if dt > 0 then
        VELOCITY_SMOOTHING_ALPHA *
            (Real.sqrt ((g.1 - l.1) ^ 2 + (g.2 - l.2.1) ^ 2) / dt) +
          (1 - VELOCITY_SMOOTHING_ALPHA) * prevV
      else prevV

/-- Fixation-start timestamp after the velocity classification: started or
kept on a low-velocity frame, cleared on a high-velocity frame. -/
def fixationStartAfter (now v : ℝ) (fixStart : Option ℝ) : Option ℝ :=
  if v < VELOCITY_THRESHOLD then some (fixStart.getD now) else none

/-- The fixating flag after the velocity classification: low velocity held
continuously for at least MIN_FIXATION_DURATION. -/
def isFixatingAfter (now v : ℝ) (fixStart : Option ℝ) : Prop :=
  v < VELOCITY_THRESHOLD ∧ (now - fixStart.getD now) / 1000 ≥ MIN_FIXATION_DURATION

/-- Scan decay: on a high-velocity frame every key's interest is multiplied
by 0.3; low-velocity frames leave interest untouched. -/
def scanDecay (v : ℝ) (ks : String → KeyState) : String → KeyState :=
  if v < VELOCITY_THRESHOLD then ks
  else overKeys ks (fun _ s => { s with interest := s.interest * 0.3 })

/-- Whether a key counts as special for likelihood boosting and the prior
floor. -/
def isSpecial (d : KeyDef) : Bool :=
  d.special || d.role == some ("space-left") || d.role == some ("space-suggest")

/-- Gaussian spatial likelihood of one key: distance from the smoothed point
to the cached rectangle's center through a Gaussian kernel, with expanded
sigma for the tracked key and a boost for special keys; 0 when the key has
no cached rectangle. -/
def keyLikelihood (g : ℝ × ℝ) (σ : ℝ) (cur : Option String) (d : KeyDef)
    (s : KeyState) : ℝ :=
  match s.rect with
  | none => 0
  | some r =>
      let centerX := r.left + r.width / 2
      let centerY := r.top + r.height / 2
      let dist := Real.sqrt ((g.1 - centerX) ^ 2 + (g.2 - centerY) ^ 2)
      let effSigma := if cur = some d.id then σ * ACTIVE_KEY_SIGMA_EXPANSION else σ
      let l := Real.exp (-(dist * dist) / (2 * effSigma * effSigma))
      if isSpecial d then l * SPECIAL_KEY_LIKELIHOOD_BOOST else l

/-- Effective prior used for weighting: special keys are floored at
SPECIAL_KEY_MIN_PRIOR without mutating the stored prior. -/
def effectivePrior (d : KeyDef) (s : KeyState) : ℝ :=
  if isSpecial d then max s.prior SPECIAL_KEY_MIN_PRIOR else s.prior

/-- The weighted likelihood sum over all keys (keys without a cached
rectangle contribute 0 through their zero likelihood). -/
def totalWeightedLikelihood (g : ℝ × ℝ) (σ : ℝ) (cur : Option String)
    (ks : String → KeyState) : ℝ :=
  (ALL_KEYS.map (fun d =>
    keyLikelihood g σ cur d (ks d.id) * effectivePrior d (ks d.id))).sum

/-- The weighted likelihood sum with the 1e-10 floor applied. -/
def flooredTotal (g : ℝ × ℝ) (σ : ℝ) (cur : Option String)
    (ks : String → KeyState) : ℝ :=
  if totalWeightedLikelihood g σ cur ks < EPS then EPS
  else totalWeightedLikelihood g σ cur ks

/-- Posterior of the key with a given id: likelihood times effective prior
over the (floored) weighted sum; 0 for ids that are not on the keyboard. -/
def posteriorFn (g : ℝ × ℝ) (σ : ℝ) (cur : Option String)
    (ks : String → KeyState) (S : ℝ) (k : String) : ℝ :=
  match lookupKey k with
  | some d => keyLikelihood g σ cur d (ks k) * effectivePrior d (ks k) / S
  | none => 0

/-- Store this frame's posterior in every key's lastPosterior field. -/
def storePosteriors (g : ℝ × ℝ) (σ : ℝ) (cur : Option String)
    (ks : String → KeyState) (S : ℝ) : String → KeyState :=
  overKeys ks (fun d s => { s with lastPosterior := posteriorFn g σ cur ks S d.id })

/-- Scan for the best and second-best posterior over the keys in layout
order, exactly as the Step 2 loop does (strict improvement, starting from
probability 0 and no best key). -/
def bestScan (post : String → ℝ) : Option String × ℝ × ℝ :=
  ALL_KEYS.foldl (fun acc d =>
    let p := post d.id
    if p > acc.2.1 then (some d.id, p, acc.2.1)
    else if p > acc.2.2 then (acc.1, acc.2.1, p)
    else acc) (none, 0, 0)

/-- Posterior of the candidate best key, 0 when there is none. -/
def bestPosterior (post : String → ℝ) (best : Option String) : ℝ :=
  match best with
  | some b => post b
  | none => 0

/-- The minimum-dwell condition: satisfied vacuously when no dwell timer is
running, else the tracked key must have been tracked at least
MIN_DWELL_BEFORE_SWITCH seconds. -/
def dwellOk (now : ℝ) (dwellStart : Option ℝ) : Prop :=
  match dwellStart with
  | none => True
  | some t0 => (now - t0) / 1000 ≥ MIN_DWELL_BEFORE_SWITCH

/-- Step 3 hysteresis and minimum dwell: keep the tracked key unless the
candidate beats it by HYSTERESIS_THRESHOLD and the dwell time has elapsed. -/
def resolveActiveKey (now : ℝ) (dwellStart : Option ℝ) (cur : Option String)
    (post : String → ℝ) (best : Option String) : Option String :=
  match cur with
  | none => best
  | some c =>
      if best = some c then best
      else if bestPosterior post best - post c ≥ HYSTERESIS_THRESHOLD ∧
          dwellOk now dwellStart then best
      else some c

/-- Interest reset performed inside the hysteresis block: when an actual
switch away from the tracked key happens while not fixating, the key being
left has its interest zeroed. -/
def hysteresisInterestReset (now : ℝ) (dwellStart : Option ℝ)
    (cur : Option String) (fixating : Prop) (post : String → ℝ)
    (best : Option String) (ks : String → KeyState) : String → KeyState :=
  match cur with
  | none => ks
  | some c =>
      if best ≠ some c ∧ bestPosterior post best - post c ≥ HYSTERESIS_THRESHOLD ∧
          dwellOk now dwellStart ∧ ¬ fixating then zeroInterestOf c ks
      else ks

/-- Interest reset performed when the tracked key changes: the newly tracked
key starts fresh unless the user is fixating. -/
def switchInterestReset (cur final : Option String) (fixating : Prop)
    (ks : String → KeyState) : String → KeyState :=
  if final ≠ cur then
    match final with
    | some f => if ¬ fixating then zeroInterestOf f ks else ks
    | none => ks
  else ks

/-- Step 4 accumulation: while fixating, the tracked key gains
dt times its posterior; every other key is untouched. -/
def accumulateInterest (fixating : Prop) (dt : ℝ) (finalActive : Option String)
    (post : String → ℝ) (ks : String → KeyState) : String → KeyState :=
  overKeys ks (fun d s =>
    if fixating ∧ finalActive = some d.id then
      { s with interest := s.interest + dt * post d.id }
    else s)

/-- Step 6 display: the tracked key is published as active only when its
posterior exceeds the feedback threshold. -/
def displayedActiveKey (finalActive : Option String) (post : String → ℝ) :
    Option String :=
  match finalActive with
  | some f => if post f > MIN_POSTERIOR_FOR_FEEDBACK then some f else none
  | none => none

/-- Step 7 selection dispatch: while fixating, if the tracked key's interest
has reached the selection threshold and it is a real key, fire the selection. -/
def selectionDispatch (st1 : EngineState) (final : Option String)
    (fixating : Prop) : EngineState × Option String :=
  match final with
  | some f =>
      if fixating ∧ (st1.keys f).interest ≥ SELECTION_THRESHOLD ∧ isKeyId f = true then
        (triggerSelection st1 f, some f)
      else (st1, none)
  | none => (st1, none)

/-- Clamped frame delta: elapsed seconds since the previous frame, capped
at 0.1 s. -/
def tickDt (now : ℝ) (st : EngineState) : ℝ :=
  min ((now - st.lastFrameTime) / 1000) 0.1

/-- The velocity used for this frame's classification. -/
def tickVelocity (now : ℝ) (g : ℝ × ℝ) (st : EngineState) : ℝ :=
  currentVelocityAfter now g st.lastGaze st.smoothedVelocity

/-- Whether this frame counts as fixating. -/
def tickFixating (now : ℝ) (g : ℝ × ℝ) (st : EngineState) : Prop :=
  isFixatingAfter now (tickVelocity now g st) st.fixationStart

/-- Keys after the scan-decay step. -/
def tickKeys1 (now : ℝ) (g : ℝ × ℝ) (st : EngineState) : String → KeyState :=
  scanDecay (tickVelocity now g st) st.keys

/-- This frame's floored weighted likelihood sum. -/
def tickS (now : ℝ) (g : ℝ × ℝ) (σ : ℝ) (st : EngineState) : ℝ :=
  flooredTotal g σ st.previousActiveKey (tickKeys1 now g st)

/-- This frame's posterior distribution. -/
def tickPost (now : ℝ) (g : ℝ × ℝ) (σ : ℝ) (st : EngineState) : String → ℝ :=
  posteriorFn g σ st.previousActiveKey (tickKeys1 now g st) (tickS now g σ st)

/-- This frame's argmax-posterior candidate. -/
def tickBest (now : ℝ) (g : ℝ × ℝ) (σ : ℝ) (st : EngineState) : Option String :=
  (bestScan (tickPost now g σ st)).1

/-- The key tracked after the hysteresis and minimum-dwell checks. -/
def tickFinal (now : ℝ) (g : ℝ × ℝ) (σ : ℝ) (st : EngineState) : Option String :=
  resolveActiveKey now st.dwellStart st.previousActiveKey (tickPost now g σ st)
    (tickBest now g σ st)

/-- Keys after storing this frame's posteriors. -/
def tickKeys2 (now : ℝ) (g : ℝ × ℝ) (σ : ℝ) (st : EngineState) : String → KeyState :=
  storePosteriors g σ st.previousActiveKey (tickKeys1 now g st) (tickS now g σ st)

/-- Keys after the hysteresis-block interest reset. -/
def tickKeys3 (now : ℝ) (g : ℝ × ℝ) (σ : ℝ) (st : EngineState) : String → KeyState :=
  hysteresisInterestReset now st.dwellStart st.previousActiveKey
    (tickFixating now g st) (tickPost now g σ st) (tickBest now g σ st)
    (tickKeys2 now g σ st)

/-- Keys after the switch-time interest reset. -/
def tickKeys4 (now : ℝ) (g : ℝ × ℝ) (σ : ℝ) (st : EngineState) : String → KeyState :=
  switchInterestReset st.previousActiveKey (tickFinal now g σ st)
    (tickFixating now g st) (tickKeys3 now g σ st)

/-- Keys after the interest accumulation step. -/
def tickKeys5 (now : ℝ) (g : ℝ × ℝ) (σ : ℝ) (st : EngineState) : String → KeyState :=
  accumulateInterest (tickFixating now g st) (tickDt now st) (tickFinal now g σ st)
    (tickPost now g σ st) (tickKeys4 now g σ st)

/-- The engine state at the end of a main-path tick, before the selection
check. -/
def tickState1 (now : ℝ) (g : ℝ × ℝ) (σ : ℝ) (st : EngineState) : EngineState :=
  { st with
      keys := tickKeys5 now g σ st
      previousActiveKey := tickFinal now g σ st
      dwellStart :=
        if tickFinal now g σ st ≠ st.previousActiveKey then some now else st.dwellStart
      fixationStart := fixationStartAfter now (tickVelocity now g st) st.fixationStart
      isFixating := tickFixating now g st
      smoothedVelocity := smoothedVelocityAfter now g st.lastGaze st.smoothedVelocity
      lastGaze := some (g.1, g.2, now)
      lastFrameTime := now
      activeKeyId := displayedActiveKey (tickFinal now g σ st) (tickPost now g σ st) }

/-- The state produced by the out-of-bounds branch of a tick: every key's
interest zeroed, tracked key and dwell timer cleared, no active key, the
rest of the pipeline skipped. -/
def tickOutOfBounds (now : ℝ) (st : EngineState) : EngineState :=
  { st with
      keys := zeroInterests st.keys
      activeKeyId := none
      previousActiveKey := none
      dwellStart := none
      lastFrameTime := now }

/-- One engine tick on the main path (running, calibrated, smoothed gaze
present): bounds gate, velocity classification and scan decay, likelihoods,
posteriors, hysteresis and dwell, interest accumulation, display update and
selection check. Returns the new state and the selection event, if any. -/
def tick (now : ℝ) (g : ℝ × ℝ) (σ : ℝ) (st : EngineState) :
    EngineState × Option String :=
  if gazeOnKeyboard st.keys g then
    selectionDispatch (tickState1 now g σ st) (tickFinal now g σ st)
      (tickFixating now g st)
  else
    (tickOutOfBounds now st, none)

/-- The Clear button handler: zero interest, counts and lastPosterior,
restore uniform priors, reset all tracking refs. -/
def handleClear (st : EngineState) : EngineState :=
  { st with
      previousActiveKey := none
      lastGaze := none
      smoothedVelocity := 0
      fixationStart := none
      isFixating := False
      dwellStart := none
      keys := overKeys st.keys (fun _ s =>
        { s with interest := 0, selectionCount := 0,
                 prior := 1 / (ALL_KEYS.length : ℝ), lastPosterior := 0 }) }

/-- The reset performed when tracking stops: clear all tracking refs and
zero every key's interest. -/
def resetGazeState (st : EngineState) : EngineState :=
  { st with
      activeKeyId := none
      previousActiveKey := none
      lastGaze := none
      smoothedVelocity := 0
      fixationStart := none
      isFixating := False
      dwellStart := none
      keys := overKeys st.keys (fun _ s => { s with interest := 0 }) }

-- ================================================================
-- Scenario of section 8: constant posterior 1 on the tracked key A
-- with a 60 Hz frame time while fixating.
-- ================================================================

/-- The scenario posterior stream: the tracked key r3-a holds posterior 1.0,
all other keys 0. -/
def scenarioPosterior : String → ℝ := fun k => if k = "r3-a" then 1 else 0

/-- The keyboard state after n scenario ticks of interest accumulation at
dt = 1/60 with key r3-a tracked and fixating throughout. -/
def scenarioRun : ℕ → (String → KeyState)
  | 0 => initKeys
  | n + 1 =>
      accumulateInterest True (1 / 60) (some ("r3-a")) scenarioPosterior
        (scenarioRun n)

-- ================================================================
-- Concrete states used to exercise the theorems.
-- ================================================================

/-- A keyboard state where only the key row1-1 has a cached rectangle,
centered at the origin, with the initial uniform prior. -/
def c3Keys : String → KeyState :=
  fun k =>
    if k = "row1-1" then ⟨0, 0, 1 / 40, some ⟨-10, -10, 20, 20⟩, 0⟩
    else initKeys k

/-- A keyboard state with two keys r2-q and r2-w whose rectangles are both
centered at the origin but whose priors are tiny, so that the weighted
likelihood sum falls under the 1e-10 floor while the two posteriors are far
apart. -/
def c4Keys : String → KeyState :=
  fun k =>
    if k = "r2-q" then ⟨0, 0, 9 / 10 ^ 11, some ⟨-10, -10, 20, 20⟩, 0⟩
    else if k = "r2-w" then ⟨0, 0, 1 / 10 ^ 30, some ⟨-10, -10, 20, 20⟩, 0⟩
    else initKeys k

/-- A keyboard state where every key holds interest 1. -/
def c7Keys : String → KeyState :=
  fun _ => ⟨1, 0, 1 / 40, none, 0⟩

/-- An engine state whose extreme keys have cached rectangles spanning
[50, 370] x [50, 370] after the 50 px margin. -/
def c8State : EngineState :=
  { initState with
      keys := fun k =>
        if k = firstKeyId then ⟨0, 0, 1 / 40, some ⟨100, 100, 20, 20⟩, 0⟩
        else if k = lastKeyId then ⟨0, 0, 1 / 40, some ⟨300, 300, 20, 20⟩, 0⟩
        else initKeys k }

/-- An engine state where the first key has no cached rectangle but every
other key does. -/
def c10State : EngineState :=
  { initState with
      keys := fun k =>
        if k = firstKeyId then initKeys k
        else ⟨0, 0, 1 / 40, some ⟨100, 100, 20, 20⟩, 0⟩ }

-- Basic facts about the key list.

theorem ALL_KEYS_length : ALL_KEYS.length = 40 := by decide

theorem lookupKey_id : ∀ d ∈ ALL_KEYS, lookupKey d.id = some d := by decide

theorem countP_id : ∀ d ∈ ALL_KEYS,
    ALL_KEYS.countP (fun e => e.id == d.id) = 1 := by decide

theorem isKeyId_iff (k : String) : isKeyId k = true ↔ ∃ d ∈ ALL_KEYS, d.id = k := by
  unfold isKeyId lookupKey
  constructor
  · intro h
    rcases Option.isSome_iff_exists.mp h with ⟨d, hd⟩
    refine ⟨d, List.mem_of_find?_eq_some hd, ?_⟩
    have h2 := List.find?_some hd
    exact eq_of_beq h2
  · rintro ⟨d, hd, rfl⟩
    exact List.find?_isSome.mpr ⟨d, hd, beq_self_eq_true d.id⟩

-- Pointwise description of the keys after a selection event.

theorem overKeys_apply_mem (ks : String → KeyState) (f : KeyDef → KeyState → KeyState)
    (d : KeyDef) (hd : d ∈ ALL_KEYS) :
    overKeys ks f d.id = f d (ks d.id) := by
  unfold overKeys
  rw [lookupKey_id d hd]

theorem overKeys_prior (ks : String → KeyState) (f : KeyDef → KeyState → KeyState)
    (h : ∀ d s, (f d s).prior = s.prior) (k : String) :
    (overKeys ks f k).prior = (ks k).prior := by
  unfold overKeys
  cases lookupKey k with
  | none => rfl
  | some d => exact h d _

theorem overKeys_selectionCount (ks : String → KeyState)
    (f : KeyDef → KeyState → KeyState)
    (h : ∀ d s, (f d s).selectionCount = s.selectionCount) (k : String) :
    (overKeys ks f k).selectionCount = (ks k).selectionCount := by
  unfold overKeys
  cases lookupKey k with
  | none => rfl
  | some d => exact h d _

theorem overKeys_lastPosterior (ks : String → KeyState)
    (f : KeyDef → KeyState → KeyState)
    (h : ∀ d s, (f d s).lastPosterior = s.lastPosterior) (k : String) :
    (overKeys ks f k).lastPosterior = (ks k).lastPosterior := by
  unfold overKeys
  cases lookupKey k with
  | none => rfl
  | some d => exact h d _

theorem overKeys_rect (ks : String → KeyState)
    (f : KeyDef → KeyState → KeyState)
    (h : ∀ d s, (f d s).rect = s.rect) (k : String) :
    (overKeys ks f k).rect = (ks k).rect := by
  unfold overKeys
  cases lookupKey k with
  | none => rfl
  | some d => exact h d _

theorem overKeys_interest_nonneg (ks : String → KeyState)
    (f : KeyDef → KeyState → KeyState)
    (h : ∀ d s, 0 ≤ s.interest → 0 ≤ (f d s).interest) (k : String)
    (hk : 0 ≤ (ks k).interest) : 0 ≤ (overKeys ks f k).interest := by
  unfold overKeys
  cases lookupKey k with
  | none => exact hk
  | some d => exact h d _ hk

-- List summation helpers.

theorem sum_map_div {α : Type} (L : List α) (f : α → ℝ) (D : ℝ) :
    (L.map (fun a => f a / D)).sum = (L.map f).sum / D := by
  induction L with
  | nil => simp
  | cons a t ih => simp [ih, add_div]

theorem sum_map_one_add {α : Type} (L : List α) (c : α → ℝ) :
    (L.map (fun a => 1 + c a)).sum = (L.length : ℝ) + (L.map c).sum := by
  induction L with
  | nil => simp
  | cons a t ih => simp [ih]; ring

theorem sum_map_const_real {α : Type} (L : List α) (x : ℝ) :
    (L.map (fun _ => x)).sum = (L.length : ℝ) * x := by
  induction L with
  | nil => simp
  | cons a t ih => simp [ih]; ring

theorem sum_map_incr (L : List KeyDef) (c : String → ℕ) (id : String) :
    (L.map (fun d => if d.id = id then c d.id + 1 else c d.id)).sum
      = (L.map (fun d => c d.id)).sum + L.countP (fun d => d.id == id) := by
  induction L with
  | nil => simp
  | cons a t ih =>
    by_cases h : a.id = id
    · simp [List.countP_cons, h, ih]
      omega
    · simp [List.countP_cons, h, ih]
      omega

-- Projections preserved by the interest-only key transforms.

theorem zeroInterests_prior (ks : String → KeyState) (k : String) :
    (zeroInterests ks k).prior = (ks k).prior := by
  unfold zeroInterests
  apply overKeys_prior
  intro d s
  rfl

theorem zeroInterests_selectionCount (ks : String → KeyState) (k : String) :
    (zeroInterests ks k).selectionCount = (ks k).selectionCount := by
  unfold zeroInterests
  apply overKeys_selectionCount
  intro d s
  rfl

theorem zeroInterests_lastPosterior (ks : String → KeyState) (k : String) :
    (zeroInterests ks k).lastPosterior = (ks k).lastPosterior := by
  unfold zeroInterests
  apply overKeys_lastPosterior
  intro d s
  rfl

theorem zeroInterests_rect (ks : String → KeyState) (k : String) :
    (zeroInterests ks k).rect = (ks k).rect := by
  unfold zeroInterests
  apply overKeys_rect
  intro d s
  rfl

theorem zeroInterests_mem (ks : String → KeyState) (d : KeyDef) (hd : d ∈ ALL_KEYS) :
    (zeroInterests ks d.id).interest = 0 := by
  unfold zeroInterests
  rw [overKeys_apply_mem ks _ d hd]

theorem zeroInterestOf_prior (c : String) (ks : String → KeyState) (k : String) :
    (zeroInterestOf c ks k).prior = (ks k).prior := by
  unfold zeroInterestOf
  split <;> rfl

theorem zeroInterestOf_selectionCount (c : String) (ks : String → KeyState) (k : String) :
    (zeroInterestOf c ks k).selectionCount = (ks k).selectionCount := by
  unfold zeroInterestOf
  split <;> rfl

theorem zeroInterestOf_nonneg (c : String) (ks : String → KeyState) (k : String)
    (h : 0 ≤ (ks k).interest) : 0 ≤ (zeroInterestOf c ks k).interest := by
  unfold zeroInterestOf
  split
  · exact le_refl 0
  · exact h

theorem scanDecay_prior (v : ℝ) (ks : String → KeyState) (k : String) :
    (scanDecay v ks k).prior = (ks k).prior := by
  unfold scanDecay
  split
  · rfl
  · apply overKeys_prior
    intro d s
    rfl

theorem scanDecay_selectionCount (v : ℝ) (ks : String → KeyState) (k : String) :
    (scanDecay v ks k).selectionCount = (ks k).selectionCount := by
  unfold scanDecay
  split
  · rfl
  · apply overKeys_selectionCount
    intro d s
    rfl

theorem scanDecay_nonneg (v : ℝ) (ks : String → KeyState) (k : String)
    (h : 0 ≤ (ks k).interest) : 0 ≤ (scanDecay v ks k).interest := by
  unfold scanDecay
  split
  · exact h
  · apply overKeys_interest_nonneg _ _ (fun d s hs => ?_) k h
    nlinarith

theorem storePosteriors_prior (g : ℝ × ℝ) (σ : ℝ) (cur : Option String)
    (ks : String → KeyState) (S : ℝ) (k : String) :
    (storePosteriors g σ cur ks S k).prior = (ks k).prior := by
  unfold storePosteriors
  apply overKeys_prior
  intro d s
  rfl

theorem storePosteriors_selectionCount (g : ℝ × ℝ) (σ : ℝ) (cur : Option String)
    (ks : String → KeyState) (S : ℝ) (k : String) :
    (storePosteriors g σ cur ks S k).selectionCount = (ks k).selectionCount := by
  unfold storePosteriors
  apply overKeys_selectionCount
  intro d s
  rfl

theorem storePosteriors_interest (g : ℝ × ℝ) (σ : ℝ) (cur : Option String)
    (ks : String → KeyState) (S : ℝ) (k : String) :
    (storePosteriors g σ cur ks S k).interest = (ks k).interest := by
  unfold storePosteriors overKeys
  cases lookupKey k <;> rfl

theorem hysteresisInterestReset_prior (now : ℝ) (dw : Option ℝ) (cur : Option String)
    (fx : Prop) (post : String → ℝ) (best : Option String)
    (ks : String → KeyState) (k : String) :
    (hysteresisInterestReset now dw cur fx post best ks k).prior = (ks k).prior := by
  unfold hysteresisInterestReset
  cases cur with
  | none => rfl
  | some c =>
    by_cases hc : best ≠ some c ∧ bestPosterior post best - post c ≥ HYSTERESIS_THRESHOLD ∧
        dwellOk now dw ∧ ¬ fx
    · simp only [if_pos hc]
      exact zeroInterestOf_prior c ks k
    · simp only [if_neg hc]

theorem hysteresisInterestReset_selectionCount (now : ℝ) (dw : Option ℝ)
    (cur : Option String) (fx : Prop) (post : String → ℝ) (best : Option String)
    (ks : String → KeyState) (k : String) :
    (hysteresisInterestReset now dw cur fx post best ks k).selectionCount =
      (ks k).selectionCount := by
  unfold hysteresisInterestReset
  cases cur with
  | none => rfl
  | some c =>
    by_cases hc : best ≠ some c ∧ bestPosterior post best - post c ≥ HYSTERESIS_THRESHOLD ∧
        dwellOk now dw ∧ ¬ fx
    · simp only [if_pos hc]
      exact zeroInterestOf_selectionCount c ks k
    · simp only [if_neg hc]

theorem hysteresisInterestReset_nonneg (now : ℝ) (dw : Option ℝ) (cur : Option String)
    (fx : Prop) (post : String → ℝ) (best : Option String)
    (ks : String → KeyState) (k : String) (h : 0 ≤ (ks k).interest) :
    0 ≤ (hysteresisInterestReset now dw cur fx post best ks k).interest := by
  unfold hysteresisInterestReset
  cases cur with
  | none => exact h
  | some c =>
    by_cases hc : best ≠ some c ∧ bestPosterior post best - post c ≥ HYSTERESIS_THRESHOLD ∧
        dwellOk now dw ∧ ¬ fx
    · simp only [if_pos hc]
      exact zeroInterestOf_nonneg c ks k h
    · simp only [if_neg hc]
      exact h

theorem switchInterestReset_prior (cur final : Option String) (fx : Prop)
    (ks : String → KeyState) (k : String) :
    (switchInterestReset cur final fx ks k).prior = (ks k).prior := by
  unfold switchInterestReset
  by_cases hne : final ≠ cur
  · simp only [if_pos hne]
    cases final with
    | none => rfl
    | some f =>
      by_cases hfx : ¬ fx
      · simp only [if_pos hfx]
        exact zeroInterestOf_prior f ks k
      · simp only [if_neg hfx]
  · simp only [if_neg hne]

theorem switchInterestReset_selectionCount (cur final : Option String) (fx : Prop)
    (ks : String → KeyState) (k : String) :
    (switchInterestReset cur final fx ks k).selectionCount = (ks k).selectionCount := by
  unfold switchInterestReset
  by_cases hne : final ≠ cur
  · simp only [if_pos hne]
    cases final with
    | none => rfl
    | some f =>
      by_cases hfx : ¬ fx
      · simp only [if_pos hfx]
        exact zeroInterestOf_selectionCount f ks k
      · simp only [if_neg hfx]
  · simp only [if_neg hne]

theorem switchInterestReset_nonneg (cur final : Option String) (fx : Prop)
    (ks : String → KeyState) (k : String) (h : 0 ≤ (ks k).interest) :
    0 ≤ (switchInterestReset cur final fx ks k).interest := by
  unfold switchInterestReset
  by_cases hne : final ≠ cur
  · simp only [if_pos hne]
    cases final with
    | none => exact h
    | some f =>
      by_cases hfx : ¬ fx
      · simp only [if_pos hfx]
        exact zeroInterestOf_nonneg f ks k h
      · simp only [if_neg hfx]
        exact h
  · simp only [if_neg hne]
    exact h

theorem accumulateInterest_prior (fx : Prop) (dt : ℝ) (fin : Option String)
    (post : String → ℝ) (ks : String → KeyState) (k : String) :
    (accumulateInterest fx dt fin post ks k).prior = (ks k).prior := by
  unfold accumulateInterest
  apply overKeys_prior
  intro d s
  by_cases hc : fx ∧ fin = some d.id
  · simp only [if_pos hc]
  · simp only [if_neg hc]

theorem accumulateInterest_selectionCount (fx : Prop) (dt : ℝ) (fin : Option String)
    (post : String → ℝ) (ks : String → KeyState) (k : String) :
    (accumulateInterest fx dt fin post ks k).selectionCount = (ks k).selectionCount := by
  unfold accumulateInterest
  apply overKeys_selectionCount
  intro d s
  by_cases hc : fx ∧ fin = some d.id
  · simp only [if_pos hc]
  · simp only [if_neg hc]

theorem accumulateInterest_nonneg (fx : Prop) (dt : ℝ) (fin : Option String)
    (post : String → ℝ) (ks : String → KeyState) (k : String)
    (hdt : 0 ≤ dt) (hpost : ∀ j, 0 ≤ post j) (h : 0 ≤ (ks k).interest) :
    0 ≤ (accumulateInterest fx dt fin post ks k).interest := by
  unfold accumulateInterest
  apply overKeys_interest_nonneg
  · intro d s hs
    by_cases hc : fx ∧ fin = some d.id
    · simp only [if_pos hc]
      exact add_nonneg hs (mul_nonneg hdt (hpost d.id))
    · simp only [if_neg hc]
      exact hs
  · exact h

-- Nonnegativity and positivity facts about the likelihood pipeline.

theorem EPS_pos : 0 < EPS := by norm_num [EPS]

theorem keyLikelihood_nonneg (g : ℝ × ℝ) (σ : ℝ) (cur : Option String)
    (d : KeyDef) (s : KeyState) : 0 ≤ keyLikelihood g σ cur d s := by
  unfold keyLikelihood
  cases s.rect with
  | none => exact le_refl 0
  | some r =>
    simp only
    split
    · have := Real.exp_pos (-(Real.sqrt ((g.1 - (r.left + r.width / 2)) ^ 2 +
        (g.2 - (r.top + r.height / 2)) ^ 2) *
        Real.sqrt ((g.1 - (r.left + r.width / 2)) ^ 2 +
        (g.2 - (r.top + r.height / 2)) ^ 2)) /
        (2 * (if cur = some d.id then σ * ACTIVE_KEY_SIGMA_EXPANSION else σ) *
          (if cur = some d.id then σ * ACTIVE_KEY_SIGMA_EXPANSION else σ)))
      have h2 : (0 : ℝ) ≤ SPECIAL_KEY_LIKELIHOOD_BOOST := by
        norm_num [SPECIAL_KEY_LIKELIHOOD_BOOST]
      exact mul_nonneg this.le h2
    · exact (Real.exp_pos _).le

theorem effectivePrior_nonneg (d : KeyDef) (s : KeyState) (h : 0 ≤ s.prior) :
    0 ≤ effectivePrior d s := by
  unfold effectivePrior
  split
  · exact le_trans (by norm_num [SPECIAL_KEY_MIN_PRIOR]) (le_max_right _ _)
  · exact h

theorem flooredTotal_pos (g : ℝ × ℝ) (σ : ℝ) (cur : Option String)
    (ks : String → KeyState) : 0 < flooredTotal g σ cur ks := by
  unfold flooredTotal
  split
  · exact EPS_pos
  · next h => linarith [EPS_pos, not_lt.mp h]

theorem posteriorFn_nonneg (g : ℝ × ℝ) (σ : ℝ) (cur : Option String)
    (ks : String → KeyState) (S : ℝ) (hS : 0 < S)
    (hprior : ∀ j, 0 ≤ (ks j).prior) (k : String) :
    0 ≤ posteriorFn g σ cur ks S k := by
  unfold posteriorFn
  cases lookupKey k with
  | none => exact le_refl 0
  | some d =>
    exact div_nonneg
      (mul_nonneg (keyLikelihood_nonneg g σ cur d (ks k))
        (effectivePrior_nonneg d (ks k) (hprior k))) hS.le

-- Facts about the three effects of a selection event.

theorem PRIOR_K_one : PRIOR_K = 1 := by norm_num [PRIOR_K]

theorem selectIncrement_selectionCount (ks : String → KeyState) (id k : String) :
    (selectIncrement ks id k).selectionCount =
      if k = id then (ks k).selectionCount + 1 else (ks k).selectionCount := by
  unfold selectIncrement
  by_cases h : k = id
  · simp only [if_pos h]
  · simp only [if_neg h]

theorem selectIncrement_prior (ks : String → KeyState) (id k : String) :
    (selectIncrement ks id k).prior = (ks k).prior := by
  unfold selectIncrement
  by_cases h : k = id
  · simp only [if_pos h]
  · simp only [if_neg h]

theorem selectIncrement_interest_selected (ks : String → KeyState) (id : String) :
    (selectIncrement ks id id).interest = 0 := by
  unfold selectIncrement
  rw [if_pos rfl]

theorem selectIncrement_interest_nonneg (ks : String → KeyState) (id k : String)
    (h : 0 ≤ (ks k).interest) : 0 ≤ (selectIncrement ks id k).interest := by
  unfold selectIncrement
  by_cases hk : k = id
  · simp only [if_pos hk]
    exact le_refl 0
  · simp only [if_neg hk]
    exact h

theorem dampOthers_selectionCount (ks : String → KeyState) (id k : String) :
    (dampOthers ks id k).selectionCount = (ks k).selectionCount := by
  unfold dampOthers
  apply overKeys_selectionCount
  intro d s
  by_cases h : d.id ≠ id
  · simp only [if_pos h]
  · simp only [if_neg h]

theorem dampOthers_prior (ks : String → KeyState) (id k : String) :
    (dampOthers ks id k).prior = (ks k).prior := by
  unfold dampOthers
  apply overKeys_prior
  intro d s
  by_cases h : d.id ≠ id
  · simp only [if_pos h]
  · simp only [if_neg h]

theorem dampOthers_interest_selected (ks : String → KeyState) (id : String) :
    (dampOthers ks id id).interest = (ks id).interest := by
  unfold dampOthers overKeys lookupKey
  cases h : ALL_KEYS.find? (fun e => e.id == id) with
  | none => rfl
  | some d =>
    have hb := List.find?_some h
    have hd : d.id = id := eq_of_beq (by simpa using hb)
    simp only [if_neg (by simp [hd] : ¬ d.id ≠ id)]

theorem dampOthers_interest_nonneg (ks : String → KeyState) (id k : String)
    (h : 0 ≤ (ks k).interest) : 0 ≤ (dampOthers ks id k).interest := by
  unfold dampOthers
  apply overKeys_interest_nonneg _ _ (fun d s hs => ?_) k h
  by_cases hne : d.id ≠ id
  · simp only [if_pos hne]
    nlinarith
  · simp only [if_neg hne]
    exact hs

theorem recomputePriors_selectionCount (ks : String → KeyState) (k : String) :
    (recomputePriors ks k).selectionCount = (ks k).selectionCount := by
  unfold recomputePriors
  apply overKeys_selectionCount
  intro d s
  rfl

theorem recomputePriors_interest (ks : String → KeyState) (k : String) :
    (recomputePriors ks k).interest = (ks k).interest := by
  unfold recomputePriors overKeys
  cases lookupKey k <;> rfl

theorem recomputePriors_prior_mem (ks : String → KeyState) (d : KeyDef)
    (hd : d ∈ ALL_KEYS) :
    (recomputePriors ks d.id).prior =
      (PRIOR_K + ((ks d.id).selectionCount : ℝ)) /
        (PRIOR_K * (ALL_KEYS.length : ℝ) + (sumCounts ks : ℝ)) := by
  unfold recomputePriors
  rw [overKeys_apply_mem ks _ d hd]

-- Selection-count sums.

theorem sumCounts_congr (ks ks' : String → KeyState)
    (h : ∀ d ∈ ALL_KEYS, (ks d.id).selectionCount = (ks' d.id).selectionCount) :
    sumCounts ks = sumCounts ks' := by
  unfold sumCounts
  rw [List.map_congr_left h]

theorem sumCounts_cast (ks : String → KeyState) :
    ((sumCounts ks : ℕ) : ℝ) =
      (ALL_KEYS.map (fun d => (((ks d.id).selectionCount : ℕ) : ℝ))).sum := by
  unfold sumCounts
  rw [Nat.cast_list_sum, List.map_map]
  rfl

theorem sumCounts_selectIncrement (ks : String → KeyState) (id : String)
    (hid : isKeyId id = true) :
    sumCounts (selectIncrement ks id) = sumCounts ks + 1 := by
  obtain ⟨d0, hd0, hd0id⟩ := (isKeyId_iff id).mp hid
  unfold sumCounts
  have hcg : ALL_KEYS.map (fun d => (selectIncrement ks id d.id).selectionCount)
      = ALL_KEYS.map (fun d =>
          if d.id = id then (ks d.id).selectionCount + 1 else (ks d.id).selectionCount) :=
    List.map_congr_left (fun d _ => selectIncrement_selectionCount ks id d.id)
  have hsum := sum_map_incr ALL_KEYS (fun s => (ks s).selectionCount) id
  simp only [] at hsum
  rw [hcg, hsum]
  have hcount : ALL_KEYS.countP (fun d => d.id == id) = 1 := by
    rw [← hd0id]
    exact countP_id d0 hd0
  rw [hcount]

theorem member_count_le_sumCounts (ks : String → KeyState) (d : KeyDef)
    (hd : d ∈ ALL_KEYS) : (ks d.id).selectionCount ≤ sumCounts ks := by
  unfold sumCounts
  exact List.le_sum_of_mem (List.mem_map_of_mem _ hd)

-- Combined description of a selection event.

theorem triggerSelection_keys (st : EngineState) (id : String) :
    (triggerSelection st id).keys =
      recomputePriors (dampOthers (selectIncrement st.keys id) id) := rfl

theorem triggerSelection_selectionCount (st : EngineState) (id k : String) :
    ((triggerSelection st id).keys k).selectionCount =
      if k = id then (st.keys k).selectionCount + 1 else (st.keys k).selectionCount := by
  rw [triggerSelection_keys, recomputePriors_selectionCount, dampOthers_selectionCount,
    selectIncrement_selectionCount]

theorem triggerSelection_sumCounts (st : EngineState) (id : String)
    (hid : isKeyId id = true) :
    sumCounts ((triggerSelection st id).keys) = sumCounts st.keys + 1 := by
  rw [triggerSelection_keys]
  have h1 : sumCounts (recomputePriors (dampOthers (selectIncrement st.keys id) id))
      = sumCounts (selectIncrement st.keys id) :=
    sumCounts_congr _ _ (fun d _ => by
      rw [recomputePriors_selectionCount, dampOthers_selectionCount])
  rw [h1, sumCounts_selectIncrement st.keys id hid]

theorem triggerSelection_prior_mem (st : EngineState) (id : String) (d : KeyDef)
    (hd : d ∈ ALL_KEYS) :
    ((triggerSelection st id).keys d.id).prior =
      (PRIOR_K + (((triggerSelection st id).keys d.id).selectionCount : ℝ)) /
        (PRIOR_K * (ALL_KEYS.length : ℝ) + (sumCounts ((triggerSelection st id).keys) : ℝ)) := by
  rw [triggerSelection_keys, recomputePriors_prior_mem _ d hd,
    recomputePriors_selectionCount]
  have h1 : sumCounts (recomputePriors (dampOthers (selectIncrement st.keys id) id))
      = sumCounts (dampOthers (selectIncrement st.keys id) id) :=
    sumCounts_congr _ _ (fun e _ => by rw [recomputePriors_selectionCount])
  rw [h1]

theorem triggerSelection_interest_selected (st : EngineState) (id : String) :
    ((triggerSelection st id).keys id).interest = 0 := by
  rw [triggerSelection_keys, recomputePriors_interest, dampOthers_interest_selected,
    selectIncrement_interest_selected]

theorem triggerSelection_interest_nonneg (st : EngineState) (id k : String)
    (h : 0 ≤ (st.keys k).interest) :
    0 ≤ ((triggerSelection st id).keys k).interest := by
  rw [triggerSelection_keys, recomputePriors_interest]
  exact dampOthers_interest_nonneg _ id k (selectIncrement_interest_nonneg st.keys id k h)

-- Tick-level bookkeeping lemmas.

theorem selectionDispatch_snd_none (st1 : EngineState) (fin : Option String)
    (fx : Prop) (h : (selectionDispatch st1 fin fx).2 = none) :
    (selectionDispatch st1 fin fx).1 = st1 := by
  unfold selectionDispatch at h ⊢
  cases fin with
  | none => rfl
  | some f =>
    dsimp only at h ⊢
    by_cases hc : fx ∧ (st1.keys f).interest ≥ SELECTION_THRESHOLD ∧ isKeyId f = true
    · rw [if_pos hc] at h
      exact absurd h (by simp)
    · rw [if_neg hc]

theorem selectionDispatch_interest_nonneg (st1 : EngineState) (fin : Option String)
    (fx : Prop) (h1 : ∀ j, 0 ≤ (st1.keys j).interest) (k : String) :
    0 ≤ ((selectionDispatch st1 fin fx).1.keys k).interest := by
  unfold selectionDispatch
  cases fin with
  | none => exact h1 k
  | some f =>
    dsimp only
    by_cases hc : fx ∧ (st1.keys f).interest ≥ SELECTION_THRESHOLD ∧ isKeyId f = true
    · rw [if_pos hc]
      exact triggerSelection_interest_nonneg st1 f k (h1 k)
    · rw [if_neg hc]
      exact h1 k

theorem tickKeys5_selectionCount (now : ℝ) (g : ℝ × ℝ) (σ : ℝ) (st : EngineState)
    (k : String) :
    (tickKeys5 now g σ st k).selectionCount = (st.keys k).selectionCount := by
  unfold tickKeys5 tickKeys4 tickKeys3 tickKeys2 tickKeys1
  rw [accumulateInterest_selectionCount, switchInterestReset_selectionCount,
    hysteresisInterestReset_selectionCount, storePosteriors_selectionCount,
    scanDecay_selectionCount]

theorem tickKeys5_prior (now : ℝ) (g : ℝ × ℝ) (σ : ℝ) (st : EngineState)
    (k : String) :
    (tickKeys5 now g σ st k).prior = (st.keys k).prior := by
  unfold tickKeys5 tickKeys4 tickKeys3 tickKeys2 tickKeys1
  rw [accumulateInterest_prior, switchInterestReset_prior,
    hysteresisInterestReset_prior, storePosteriors_prior, scanDecay_prior]

theorem tickKeys1_prior (now : ℝ) (g : ℝ × ℝ) (st : EngineState) (k : String) :
    (tickKeys1 now g st k).prior = (st.keys k).prior := by
  unfold tickKeys1
  rw [scanDecay_prior]

theorem tickS_pos (now : ℝ) (g : ℝ × ℝ) (σ : ℝ) (st : EngineState) :
    0 < tickS now g σ st := by
  unfold tickS
  exact flooredTotal_pos g σ st.previousActiveKey (tickKeys1 now g st)

theorem tickPost_nonneg (now : ℝ) (g : ℝ × ℝ) (σ : ℝ) (st : EngineState)
    (hprior : ∀ j, 0 ≤ (st.keys j).prior) (k : String) :
    0 ≤ tickPost now g σ st k := by
  unfold tickPost
  refine posteriorFn_nonneg g σ st.previousActiveKey (tickKeys1 now g st)
    (tickS now g σ st) (tickS_pos now g σ st) (fun j => ?_) k
  rw [tickKeys1_prior]
  exact hprior j

theorem tickDt_nonneg (now : ℝ) (st : EngineState) (h : st.lastFrameTime ≤ now) :
    0 ≤ tickDt now st := by
  unfold tickDt
  refine le_min ?_ (by norm_num)
  have : 0 ≤ now - st.lastFrameTime := sub_nonneg.mpr h
  positivity

theorem tickKeys5_interest_nonneg (now : ℝ) (g : ℝ × ℝ) (σ : ℝ) (st : EngineState)
    (hI : ∀ j, 0 ≤ (st.keys j).interest) (hP : ∀ j, 0 ≤ (st.keys j).prior)
    (hT : st.lastFrameTime ≤ now) (k : String) :
    0 ≤ (tickKeys5 now g σ st k).interest := by
  unfold tickKeys5
  refine accumulateInterest_nonneg _ _ _ _ _ k (tickDt_nonneg now st hT)
    (tickPost_nonneg now g σ st hP) ?_
  unfold tickKeys4
  refine switchInterestReset_nonneg _ _ _ _ k ?_
  unfold tickKeys3
  refine hysteresisInterestReset_nonneg _ _ _ _ _ _ _ k ?_
  unfold tickKeys2
  rw [storePosteriors_interest]
  unfold tickKeys1
  exact scanDecay_nonneg _ _ k (hI k)

-- ================================================================
-- Claim theorems.
-- ================================================================

/-- C1: after initialization the priors are uniform and sum to 1; after every
selection-triggered prior update the priors again sum to 1; and, when the
stored prior of the selected key agrees with the Dirichlet formula for the
current counts, a selection event strictly increases the selected key's
prior over its pre-selection value. -/
theorem c1_prior_sum_and_strict_increase :
    ((ALL_KEYS.map (fun d => (initKeys d.id).prior)).sum = 1)
    ∧ (∀ (st : EngineState) (id : String),
        (ALL_KEYS.map (fun d => ((triggerSelection st id).keys d.id).prior)).sum = 1)
    ∧ (∀ (st : EngineState) (id : String), isKeyId id = true →
        (st.keys id).prior =
          (PRIOR_K + ((st.keys id).selectionCount : ℝ)) /
            (PRIOR_K * (ALL_KEYS.length : ℝ) + (sumCounts st.keys : ℝ)) →
        (st.keys id).prior < ((triggerSelection st id).keys id).prior) := by
  refine ⟨?_, ?_, ?_⟩
  · have hconst : (fun d : KeyDef => (initKeys d.id).prior)
        = fun _ : KeyDef => 1 / (ALL_KEYS.length : ℝ) := rfl
    rw [hconst, sum_map_const_real, ALL_KEYS_length]
    norm_num
  · intro st id
    have hcg : ALL_KEYS.map (fun d => ((triggerSelection st id).keys d.id).prior)
        = ALL_KEYS.map (fun d =>
            (PRIOR_K + (((triggerSelection st id).keys d.id).selectionCount : ℝ)) /
              (PRIOR_K * (ALL_KEYS.length : ℝ) +
                (sumCounts ((triggerSelection st id).keys) : ℝ))) :=
      List.map_congr_left (fun d hd => triggerSelection_prior_mem st id d hd)
    rw [hcg]
    have hdiv := sum_map_div ALL_KEYS
      (fun d => PRIOR_K + (((triggerSelection st id).keys d.id).selectionCount : ℝ))
      (PRIOR_K * (ALL_KEYS.length : ℝ) + (sumCounts ((triggerSelection st id).keys) : ℝ))
    simp only [] at hdiv
    rw [hdiv, PRIOR_K_one]
    have hone := sum_map_one_add ALL_KEYS
      (fun d => (((triggerSelection st id).keys d.id).selectionCount : ℝ))
    simp only [] at hone
    rw [hone, ← sumCounts_cast, ALL_KEYS_length]
    have h0 : (0 : ℝ) ≤ (sumCounts ((triggerSelection st id).keys) : ℝ) :=
      Nat.cast_nonneg _
    rw [one_mul]
    exact div_self (by positivity)
  · intro st id hid hcoh
    obtain ⟨d0, hd0, hd0id⟩ := (isKeyId_iff id).mp hid
    subst hd0id
    have hnew := triggerSelection_prior_mem st d0.id d0 hd0
    rw [triggerSelection_selectionCount, if_pos rfl,
      triggerSelection_sumCounts st d0.id hid] at hnew
    rw [hnew, hcoh, PRIOR_K_one, ALL_KEYS_length]
    have hle : (st.keys d0.id).selectionCount ≤ sumCounts st.keys :=
      member_count_le_sumCounts st.keys d0 hd0
    have hleR : ((st.keys d0.id).selectionCount : ℝ) ≤ (sumCounts st.keys : ℝ) :=
      Nat.cast_le.mpr hle
    have hd1 : (0 : ℝ) < 1 * (40 : ℕ) + (sumCounts st.keys : ℝ) := by positivity
    have hd2 : (0 : ℝ) < 1 * (40 : ℕ) + ((sumCounts st.keys + 1 : ℕ) : ℝ) := by
      positivity
    rw [div_lt_div_iff₀ hd1 hd2]
    push_cast
    ring_nf
    push_cast at hleR
    linarith [hleR]

/-- C1 witness: at the freshly initialized engine, selecting the key r3-a
satisfies the hypotheses of the strict-increase part. -/
theorem c1_witness :
    isKeyId ("r3-a") = true ∧
    (initState.keys ("r3-a")).prior =
      (PRIOR_K + ((initState.keys ("r3-a")).selectionCount : ℝ)) /
        (PRIOR_K * (ALL_KEYS.length : ℝ) + (sumCounts initState.keys : ℝ)) ∧
    (initState.keys ("r3-a")).prior <
      ((triggerSelection initState ("r3-a")).keys ("r3-a")).prior := by
  have hid : isKeyId ("r3-a") = true := by decide
  have hzero : sumCounts initState.keys = 0 := by decide
  have hcoh : (initState.keys ("r3-a")).prior =
      (PRIOR_K + ((initState.keys ("r3-a")).selectionCount : ℝ)) /
        (PRIOR_K * (ALL_KEYS.length : ℝ) + (sumCounts initState.keys : ℝ)) := by
    show (1 : ℝ) / (ALL_KEYS.length : ℝ) =
      (PRIOR_K + ((0 : ℕ) : ℝ)) /
        (PRIOR_K * (ALL_KEYS.length : ℝ) + (sumCounts initState.keys : ℝ))
    rw [hzero, PRIOR_K_one, ALL_KEYS_length]
    norm_num
  exact ⟨hid, hcoh,
    c1_prior_sum_and_strict_increase.2.2 initState ("r3-a") hid hcoh⟩

/-- C2: on a selection event the selected key's count is incremented first
and every key's prior is then recomputed from the post-increment counts,
with the incremented count appearing both in the selected key's numerator
and in the summed denominator; and on a tick that fires no selection event,
no selection count and no prior changes. -/
theorem c2_selection_update :
    (∀ (st : EngineState) (id k : String),
        ((triggerSelection st id).keys k).selectionCount =
          if k = id then (st.keys k).selectionCount + 1
          else (st.keys k).selectionCount)
    ∧ (∀ (st : EngineState) (id : String), ∀ d ∈ ALL_KEYS,
        ((triggerSelection st id).keys d.id).prior =
          (PRIOR_K + (((triggerSelection st id).keys d.id).selectionCount : ℝ)) /
            (PRIOR_K * (ALL_KEYS.length : ℝ) +
              (sumCounts ((triggerSelection st id).keys) : ℝ)))
    ∧ (∀ (now : ℝ) (g : ℝ × ℝ) (σ : ℝ) (st : EngineState),
        (tick now g σ st).2 = none →
        ∀ k, ((tick now g σ st).1.keys k).selectionCount = (st.keys k).selectionCount ∧
          ((tick now g σ st).1.keys k).prior = (st.keys k).prior) := by
  refine ⟨fun st id k => triggerSelection_selectionCount st id k,
    fun st id d hd => triggerSelection_prior_mem st id d hd, ?_⟩
  intro now g σ st h k
  unfold tick at h ⊢
  by_cases hg : gazeOnKeyboard st.keys g
  · rw [if_pos hg] at h ⊢
    rw [selectionDispatch_snd_none _ _ _ h]
    unfold tickState1
    dsimp only
    exact ⟨tickKeys5_selectionCount now g σ st k, tickKeys5_prior now g σ st k⟩
  · rw [if_neg hg]
    unfold tickOutOfBounds
    dsimp only
    exact ⟨zeroInterests_selectionCount st.keys k, zeroInterests_prior st.keys k⟩

/-- C2 witness: a concrete tick that fires no selection event (the freshly
initialized engine has no cached rectangles, so the gaze is off-keyboard)
leaves counts and priors unchanged. -/
theorem c2_witness :
    (tick 1 (0, 0) 40 initState).2 = none ∧
    ((tick 1 (0, 0) 40 initState).1.keys ("r3-a")).selectionCount =
      (initState.keys ("r3-a")).selectionCount ∧
    ((tick 1 (0, 0) 40 initState).1.keys ("r3-a")).prior =
      (initState.keys ("r3-a")).prior := by
  have hng : ¬ gazeOnKeyboard initState.keys (0, 0) := fun hfalse => hfalse
  have hnone : (tick 1 (0, 0) 40 initState).2 = none := by
    unfold tick
    rw [if_neg hng]
  have h := c2_selection_update.2.2 1 (0, 0) 40 initState hnone ("r3-a")
  exact ⟨hnone, h.1, h.2⟩

-- Posterior-sum bookkeeping.

theorem sum_posteriors (g : ℝ × ℝ) (σ : ℝ) (cur : Option String)
    (ks : String → KeyState) (S : ℝ) :
    (ALL_KEYS.map (fun d => posteriorFn g σ cur ks S d.id)).sum =
      totalWeightedLikelihood g σ cur ks / S := by
  have hcg : ALL_KEYS.map (fun d => posteriorFn g σ cur ks S d.id)
      = ALL_KEYS.map (fun d =>
          keyLikelihood g σ cur d (ks d.id) * effectivePrior d (ks d.id) / S) :=
    List.map_congr_left (fun d hd => by
      unfold posteriorFn
      rw [lookupKey_id d hd])
  rw [hcg]
  have hdiv := sum_map_div ALL_KEYS
    (fun d => keyLikelihood g σ cur d (ks d.id) * effectivePrior d (ks d.id)) S
  simp only [] at hdiv
  rw [hdiv]
  rfl

/-- C3: whenever at least one key has a cached rectangle and the weighted
likelihood sum is not replaced by the epsilon floor, the posteriors of that
tick sum to 1 over all keys, and keys without a cached rectangle have
posterior 0. -/
theorem c3_posterior_normalization (g : ℝ × ℝ) (σ : ℝ) (cur : Option String)
    (ks : String → KeyState)
    (h1 : ∃ d ∈ ALL_KEYS, (ks d.id).rect ≠ none)
    (h2 : ¬ (totalWeightedLikelihood g σ cur ks < EPS)) :
    ((ALL_KEYS.map (fun d =>
        posteriorFn g σ cur ks (flooredTotal g σ cur ks) d.id)).sum = 1)
    ∧ (∀ d ∈ ALL_KEYS, (ks d.id).rect = none →
        posteriorFn g σ cur ks (flooredTotal g σ cur ks) d.id = 0) := by
  have hS : flooredTotal g σ cur ks = totalWeightedLikelihood g σ cur ks := by
    unfold flooredTotal
    rw [if_neg h2]
  constructor
  · rw [sum_posteriors, hS]
    have hpos : 0 < totalWeightedLikelihood g σ cur ks :=
      lt_of_lt_of_le EPS_pos (not_lt.mp h2)
    exact div_self (ne_of_gt hpos)
  · intro d hd hrect
    unfold posteriorFn
    rw [lookupKey_id d hd]
    unfold keyLikelihood
    rw [hrect]
    dsimp only
    rw [zero_mul, zero_div]

-- Evaluation helpers for concrete keyboard states.

theorem keyLikelihood_rect_none (g : ℝ × ℝ) (σ : ℝ) (cur : Option String)
    (d : KeyDef) (s : KeyState) (h : s.rect = none) :
    keyLikelihood g σ cur d s = 0 := by
  unfold keyLikelihood
  rw [h]

theorem ALL_KEYS_nodup : ALL_KEYS.Nodup := by decide

theorem sum_map_ite_single (L : List KeyDef) (K : KeyDef) (x : ℝ)
    (hmem : K ∈ L) (hnodup : L.Nodup) :
    (L.map (fun d => if d = K then x else 0)).sum = x := by
  induction L with
  | nil => cases hmem
  | cons a t ih =>
    rcases List.nodup_cons.mp hnodup with ⟨ha, ht⟩
    rcases List.mem_cons.mp hmem with h | h
    · subst h
      simp only [List.map_cons, List.sum_cons]
      rw [if_true]
      have hall : ∀ d ∈ t, (if d = K then x else 0) = 0 :=
        fun d hd => if_neg (by intro he; exact ha (he ▸ hd))
      rw [List.map_congr_left hall, sum_map_const_real, mul_zero, add_zero]
    · have hne : a ≠ K := fun he => ha (he ▸ h)
      simp only [List.map_cons, List.sum_cons, if_neg hne]
      rw [ih h ht, zero_add]

theorem sum_map_ite_pair (L : List KeyDef) (K1 K2 : KeyDef) (x y : ℝ)
    (h12 : K1 ≠ K2) (h1 : K1 ∈ L) (h2 : K2 ∈ L) (hnodup : L.Nodup) :
    (L.map (fun d => if d = K1 then x else if d = K2 then y else 0)).sum = x + y := by
  induction L with
  | nil => cases h1
  | cons a t ih =>
    rcases List.nodup_cons.mp hnodup with ⟨ha, ht⟩
    by_cases ha1 : a = K1
    · subst ha1
      have h2t : K2 ∈ t := by
        rcases List.mem_cons.mp h2 with h | h
        · exact absurd h.symm h12
        · exact h
      simp only [List.map_cons, List.sum_cons]
      rw [if_true]
      have hall : ∀ d ∈ t, (if d = a then x else if d = K2 then y else 0)
          = (if d = K2 then y else 0) :=
        fun d hd => if_neg (by intro he; exact ha (he ▸ hd))
      rw [List.map_congr_left hall, sum_map_ite_single t K2 y h2t ht]
    · by_cases ha2 : a = K2
      · subst ha2
        have h1t : K1 ∈ t := by
          rcases List.mem_cons.mp h1 with h | h
          · exact absurd h.symm ha1
          · exact h
        simp only [List.map_cons, List.sum_cons]
        rw [if_neg ha1, if_true]
        have hall : ∀ d ∈ t, (if d = K1 then x else if d = a then y else 0)
            = (if d = K1 then x else 0) := by
          intro d hd
          by_cases hdk : d = K1
          · rw [if_pos hdk, if_pos hdk]
          · rw [if_neg hdk, if_neg hdk, if_neg (by intro he; exact ha (he ▸ hd))]
        rw [List.map_congr_left hall, sum_map_ite_single t K1 x h1t ht, add_comm]
      · have h1t : K1 ∈ t := by
          rcases List.mem_cons.mp h1 with h | h
          · exact absurd h.symm ha1
          · exact h
        have h2t : K2 ∈ t := by
          rcases List.mem_cons.mp h2 with h | h
          · exact absurd h.symm ha2
          · exact h
        simp only [List.map_cons, List.sum_cons]
        rw [if_neg ha1, if_neg ha2, ih h1t h2t ht, zero_add]

/-- C3 witness: with only the key row1-1 cached, its rectangle centered on
the gaze point and sigma 40, the weighted likelihood sum is 1/40, above the
floor, and the posteriors sum to 1. -/
theorem c3_witness :
    (∃ d ∈ ALL_KEYS, (c3Keys d.id).rect ≠ none) ∧
    ¬ (totalWeightedLikelihood (0, 0) 40 none c3Keys < EPS) ∧
    ((ALL_KEYS.map (fun d => posteriorFn (0, 0) 40 none c3Keys
        (flooredTotal (0, 0) 40 none c3Keys) d.id)).sum = 1) := by
  have hklik : keyLikelihood (0, 0) 40 none ⟨"row1-1", false, none⟩
      ⟨0, 0, 1 / 40, some ⟨-10, -10, 20, 20⟩, 0⟩ = 1 := by
    unfold keyLikelihood
    dsimp only
    norm_num [isSpecial, Real.sqrt_zero, Real.exp_zero]
  have hc3val : c3Keys ("row1-1") = ⟨0, 0, 1 / 40, some ⟨-10, -10, 20, 20⟩, 0⟩ := by
    unfold c3Keys
    rw [if_pos rfl]
  have hid_unique : ∀ d ∈ ALL_KEYS, d ≠ ⟨"row1-1", false, none⟩ →
      ¬ d.id = "row1-1" := by decide
  have hmem1 : (⟨"row1-1", false, none⟩ : KeyDef) ∈ ALL_KEYS := by decide
  have hterm : ∀ d ∈ ALL_KEYS,
      keyLikelihood (0, 0) 40 none d (c3Keys d.id) * effectivePrior d (c3Keys d.id)
        = (if d = ⟨"row1-1", false, none⟩ then 1 / 40 else 0) := by
    intro d hd
    by_cases h : d = (⟨"row1-1", false, none⟩ : KeyDef)
    · rw [if_pos h, h]
      show keyLikelihood (0, 0) 40 none ⟨"row1-1", false, none⟩ (c3Keys ("row1-1")) *
          effectivePrior ⟨"row1-1", false, none⟩ (c3Keys ("row1-1")) = 1 / 40
      rw [hc3val, hklik]
      unfold effectivePrior
      norm_num [isSpecial]
    · rw [if_neg h]
      have hidne : ¬ d.id = "row1-1" := hid_unique d hd h
      have hcv : c3Keys d.id = initKeys d.id := by
        unfold c3Keys
        rw [if_neg hidne]
      rw [hcv, keyLikelihood_rect_none _ _ _ _ _ rfl, zero_mul]
  have htot : totalWeightedLikelihood (0, 0) 40 none c3Keys = 1 / 40 := by
    unfold totalWeightedLikelihood
    rw [List.map_congr_left hterm,
      sum_map_ite_single ALL_KEYS _ _ hmem1 ALL_KEYS_nodup]
  have h1 : ∃ d ∈ ALL_KEYS, (c3Keys d.id).rect ≠ none := by
    refine ⟨⟨"row1-1", false, none⟩, hmem1, ?_⟩
    show (c3Keys ("row1-1")).rect ≠ none
    rw [hc3val]
    simp
  have h2 : ¬ (totalWeightedLikelihood (0, 0) 40 none c3Keys < EPS) := by
    rw [htot]
    norm_num [EPS]
  exact ⟨h1, h2, (c3_posterior_normalization (0, 0) 40 none c3Keys h1 h2).1⟩

/-- C4 (amended): when the weighted likelihood sum is below 1e-10 it is
replaced by the 1e-10 floor, so the divisor is positive and no division by
zero occurs; each posterior is then weight over 1e-10, the total posterior
mass equals the unfloored sum divided by 1e-10 and is strictly below 1. The
resulting distribution over keys with known geometry need not be
near-uniform. -/
theorem c4_floor_and_mass (g : ℝ × ℝ) (σ : ℝ) (cur : Option String)
    (ks : String → KeyState)
    (h : totalWeightedLikelihood g σ cur ks < EPS) :
    flooredTotal g σ cur ks = EPS ∧
    0 < flooredTotal g σ cur ks ∧
    (ALL_KEYS.map (fun d =>
        posteriorFn g σ cur ks (flooredTotal g σ cur ks) d.id)).sum
      = totalWeightedLikelihood g σ cur ks / EPS ∧
    (ALL_KEYS.map (fun d =>
        posteriorFn g σ cur ks (flooredTotal g σ cur ks) d.id)).sum < 1 := by
  have hS : flooredTotal g σ cur ks = EPS := by
    unfold flooredTotal
    rw [if_pos h]
  refine ⟨hS, hS ▸ EPS_pos, ?_, ?_⟩
  · rw [sum_posteriors, hS]
  · rw [sum_posteriors, hS]
    exact (div_lt_one EPS_pos).mpr h

/-- C4 counterexample: a degenerate tick in which two keys both have cached
rectangles centered on the gaze point, yet their posteriors under the
epsilon floor differ by at least one half, so the posterior distribution
over the keys with known geometry is far from uniform. -/
theorem c4_counterexample :
    totalWeightedLikelihood (0, 0) 40 none c4Keys < EPS ∧
    (c4Keys ("r2-q")).rect ≠ none ∧
    (c4Keys ("r2-w")).rect ≠ none ∧
    posteriorFn (0, 0) 40 none c4Keys (flooredTotal (0, 0) 40 none c4Keys) ("r2-q")
      - posteriorFn (0, 0) 40 none c4Keys (flooredTotal (0, 0) 40 none c4Keys) ("r2-w")
      ≥ 1 / 2 := by
  have hklik : ∀ (d : KeyDef) (p : ℝ), isSpecial d = false →
      keyLikelihood (0, 0) 40 none d ⟨0, 0, p, some ⟨-10, -10, 20, 20⟩, 0⟩ = 1 := by
    intro d p hs
    unfold keyLikelihood
    dsimp only
    norm_num [hs, Real.sqrt_zero, Real.exp_zero]
  have hcq : c4Keys ("r2-q") = ⟨0, 0, 9 / 10 ^ 11, some ⟨-10, -10, 20, 20⟩, 0⟩ := by
    unfold c4Keys
    rw [if_pos rfl]
  have hcw : c4Keys ("r2-w") = ⟨0, 0, 1 / 10 ^ 30, some ⟨-10, -10, 20, 20⟩, 0⟩ := by
    unfold c4Keys
    rw [if_neg (by decide : ¬ ("r2-w" : String) = "r2-q"), if_pos rfl]
  have huq : ∀ d ∈ ALL_KEYS, d ≠ ⟨"r2-q", false, none⟩ → ¬ d.id = "r2-q" := by decide
  have huw : ∀ d ∈ ALL_KEYS, d ≠ ⟨"r2-w", false, none⟩ → ¬ d.id = "r2-w" := by decide
  have hterm : ∀ d ∈ ALL_KEYS,
      keyLikelihood (0, 0) 40 none d (c4Keys d.id) * effectivePrior d (c4Keys d.id)
        = (if d = ⟨"r2-q", false, none⟩ then 9 / 10 ^ 11
           else if d = ⟨"r2-w", false, none⟩ then 1 / 10 ^ 30 else 0) := by
    intro d hd
    by_cases hq : d = (⟨"r2-q", false, none⟩ : KeyDef)
    · rw [if_pos hq, hq]
      show keyLikelihood (0, 0) 40 none ⟨"r2-q", false, none⟩ (c4Keys ("r2-q")) *
          effectivePrior ⟨"r2-q", false, none⟩ (c4Keys ("r2-q")) = 9 / 10 ^ 11
      rw [hcq, hklik _ _ (by decide)]
      unfold effectivePrior
      norm_num [isSpecial]
    · rw [if_neg hq]
      by_cases hw : d = (⟨"r2-w", false, none⟩ : KeyDef)
      · rw [if_pos hw, hw]
        show keyLikelihood (0, 0) 40 none ⟨"r2-w", false, none⟩ (c4Keys ("r2-w")) *
            effectivePrior ⟨"r2-w", false, none⟩ (c4Keys ("r2-w")) = 1 / 10 ^ 30
        rw [hcw, hklik _ _ (by decide)]
        unfold effectivePrior
        norm_num [isSpecial]
      · rw [if_neg hw]
        have hnq : ¬ d.id = "r2-q" := huq d hd hq
        have hnw : ¬ d.id = "r2-w" := huw d hd hw
        have hcv : c4Keys d.id = initKeys d.id := by
          unfold c4Keys
          rw [if_neg hnq, if_neg hnw]
        rw [hcv, keyLikelihood_rect_none _ _ _ _ _ rfl, zero_mul]
  have htot : totalWeightedLikelihood (0, 0) 40 none c4Keys
      = 9 / 10 ^ 11 + 1 / 10 ^ 30 := by
    unfold totalWeightedLikelihood
    rw [List.map_congr_left hterm,
      sum_map_ite_pair ALL_KEYS _ _ _ _ (by decide) (by decide) (by decide)
        ALL_KEYS_nodup]
  have hlt : totalWeightedLikelihood (0, 0) 40 none c4Keys < EPS := by
    rw [htot]
    norm_num [EPS]
  have hfloor : flooredTotal (0, 0) 40 none c4Keys = EPS := by
    unfold flooredTotal
    rw [if_pos hlt]
  have hpq : posteriorFn (0, 0) 40 none c4Keys (flooredTotal (0, 0) 40 none c4Keys)
      ("r2-q") = 9 / 10 := by
    unfold posteriorFn
    rw [(by decide : lookupKey ("r2-q") = some ⟨"r2-q", false, none⟩)]
    dsimp only
    rw [hcq, hklik _ _ (by decide), hfloor]
    unfold effectivePrior
    norm_num [isSpecial, EPS]
  have hpw : posteriorFn (0, 0) 40 none c4Keys (flooredTotal (0, 0) 40 none c4Keys)
      ("r2-w") = 1 / 10 ^ 20 := by
    unfold posteriorFn
    rw [(by decide : lookupKey ("r2-w") = some ⟨"r2-w", false, none⟩)]
    dsimp only
    rw [hcw, hklik _ _ (by decide), hfloor]
    unfold effectivePrior
    norm_num [isSpecial, EPS]
  refine ⟨hlt, ?_, ?_, ?_⟩
  · rw [hcq]
    simp
  · rw [hcw]
    simp
  · rw [hpq, hpw]
    norm_num

/-- C4 witness: at the freshly initialized keyboard no key has geometry, the
weighted likelihood sum is 0 and hence below the floor, so the floor value
is used and the posterior mass stays below 1. -/
theorem c4_witness :
    totalWeightedLikelihood (0, 0) 40 none initKeys < EPS ∧
    flooredTotal (0, 0) 40 none initKeys = EPS ∧
    (ALL_KEYS.map (fun d => posteriorFn (0, 0) 40 none initKeys
        (flooredTotal (0, 0) 40 none initKeys) d.id)).sum < 1 := by
  have htot0 : totalWeightedLikelihood (0, 0) 40 none initKeys = 0 := by
    unfold totalWeightedLikelihood
    have hall : ∀ d ∈ ALL_KEYS,
        keyLikelihood (0, 0) 40 none d (initKeys d.id) *
          effectivePrior d (initKeys d.id) = 0 := by
      intro d _
      rw [keyLikelihood_rect_none _ _ _ _ _ rfl, zero_mul]
    rw [List.map_congr_left hall, sum_map_const_real, mul_zero]
  have h : totalWeightedLikelihood (0, 0) 40 none initKeys < EPS := by
    rw [htot0]
    exact EPS_pos
  have happ := c4_floor_and_mass (0, 0) 40 none initKeys h
  exact ⟨h, happ.1, happ.2.2.2⟩

/-- C5: interest never becomes negative under a tick (accumulation, scan
decay, switch resets and the out-of-bounds reset), under a selection event,
or under the clear and stop resets, given nonnegative interest and priors
and a monotone frame clock; and immediately after any selection event the
selected key's interest is exactly 0. -/
theorem c5_interest_nonneg :
    (∀ (now : ℝ) (g : ℝ × ℝ) (σ : ℝ) (st : EngineState),
        (∀ j, 0 ≤ (st.keys j).interest) → (∀ j, 0 ≤ (st.keys j).prior) →
        st.lastFrameTime ≤ now →
        ∀ k, 0 ≤ ((tick now g σ st).1.keys k).interest)
    ∧ (∀ (st : EngineState) (id : String),
        (∀ j, 0 ≤ (st.keys j).interest) →
        ∀ k, 0 ≤ ((triggerSelection st id).keys k).interest)
    ∧ (∀ (st : EngineState) (id : String),
        ((triggerSelection st id).keys id).interest = 0)
    ∧ (∀ (st : EngineState), ∀ d ∈ ALL_KEYS,
        ((handleClear st).keys d.id).interest = 0)
    ∧ (∀ (st : EngineState), ∀ d ∈ ALL_KEYS,
        ((resetGazeState st).keys d.id).interest = 0) := by
  refine ⟨?_, ?_, ?_, ?_, ?_⟩
  · intro now g σ st hI hP hT k
    unfold tick
    by_cases hg : gazeOnKeyboard st.keys g
    · rw [if_pos hg]
      apply selectionDispatch_interest_nonneg
      intro j
      show 0 ≤ ((tickState1 now g σ st).keys j).interest
      unfold tickState1
      dsimp only
      exact tickKeys5_interest_nonneg now g σ st hI hP hT j
    · rw [if_neg hg]
      unfold tickOutOfBounds
      dsimp only
      unfold zeroInterests
      exact overKeys_interest_nonneg _ _ (fun d s hs => le_refl 0) k (hI k)
  · intro st id hI k
    exact triggerSelection_interest_nonneg st id k (hI k)
  · intro st id
    exact triggerSelection_interest_selected st id
  · intro st d hd
    unfold handleClear
    dsimp only
    rw [overKeys_apply_mem st.keys _ d hd]
  · intro st d hd
    unfold resetGazeState
    dsimp only
    rw [overKeys_apply_mem st.keys _ d hd]

/-- C5 witness: the freshly initialized engine has nonnegative interests and
priors and a frame clock behind the tick time, so a concrete tick keeps
interest nonnegative and a concrete selection zeroes the selected key. -/
theorem c5_witness :
    (∀ j, 0 ≤ (initState.keys j).interest) ∧
    (∀ j, 0 ≤ (initState.keys j).prior) ∧
    initState.lastFrameTime ≤ 1 ∧
    (0 ≤ ((tick 1 (0, 0) 40 initState).1.keys ("r3-a")).interest) ∧
    ((triggerSelection initState ("r3-a")).keys ("r3-a")).interest = 0 := by
  have hI : ∀ j, 0 ≤ (initState.keys j).interest := fun j => le_refl 0
  have hP : ∀ j, 0 ≤ (initState.keys j).prior := by
    intro j
    show (0 : ℝ) ≤ 1 / (ALL_KEYS.length : ℝ)
    positivity
  have hT : initState.lastFrameTime ≤ 1 := by
    show (0 : ℝ) ≤ 1
    norm_num
  exact ⟨hI, hP, hT, c5_interest_nonneg.1 1 (0, 0) 40 initState hI hP hT ("r3-a"),
    c5_interest_nonneg.2.2.1 initState ("r3-a")⟩

/-- C6: with a tracked key, a dwell timer running since t0 and a candidate
different from the tracked key, the tracked key changes to the candidate
exactly when the candidate's posterior beats the tracked key's by the
hysteresis threshold and the dwell time has elapsed; otherwise it stays. -/
theorem c6_hysteresis_dwell (now t0 : ℝ) (c : String) (post : String → ℝ)
    (best : Option String) (hne : best ≠ some c) :
    resolveActiveKey now (some t0) (some c) post best =
      if bestPosterior post best - post c ≥ HYSTERESIS_THRESHOLD ∧
          (now - t0) / 1000 ≥ MIN_DWELL_BEFORE_SWITCH then best
      else some c := by
  unfold resolveActiveKey dwellOk
  dsimp only
  rw [if_neg hne]

/-- C6 witness: candidate r2-w with posterior 1 against tracked key r2-q
with posterior 0 at dwell start 0 and time 1. -/
theorem c6_witness :
    ((some ("r2-w") : Option String) ≠ some ("r2-q")) ∧
    resolveActiveKey 1 (some 0) (some ("r2-q"))
        (fun k => if k = "r2-w" then 1 else 0) (some ("r2-w")) =
      (if bestPosterior (fun k => if k = "r2-w" then (1 : ℝ) else 0) (some ("r2-w")) -
          (fun k => if k = "r2-w" then (1 : ℝ) else 0) ("r2-q") ≥ HYSTERESIS_THRESHOLD ∧
          ((1 : ℝ) - 0) / 1000 ≥ MIN_DWELL_BEFORE_SWITCH then some ("r2-w")
       else some ("r2-q")) := by
  have hne : (some ("r2-w") : Option String) ≠ some ("r2-q") := by simp
  exact ⟨hne, c6_hysteresis_dwell 1 0 ("r2-q") _ (some ("r2-w")) hne⟩

-- Scan-decay on a high-velocity frame, per keyboard key.

theorem scanDecay_high (v : ℝ) (ks : String → KeyState) (d : KeyDef)
    (hd : d ∈ ALL_KEYS) (hv : ¬ v < VELOCITY_THRESHOLD) :
    (scanDecay v ks d.id).interest = (ks d.id).interest * 0.3 := by
  unfold scanDecay
  rw [if_neg hv, overKeys_apply_mem ks _ d hd]

/-- C7 counterexample: after a first high-velocity frame the fixation timer
is already cleared, so a second frame at velocity 400 is not a transition
from below to at-or-above the threshold; yet the engine multiplies interest
by 0.3 again, leaving 0.09 instead of the 0.3 that a decay applied only on
the transition would leave. -/
theorem c7_counterexample :
    fixationStartAfter 1 400 none = none ∧
    (scanDecay 400 (scanDecay 400 c7Keys) ("r2-q")).interest = 9 / 100 ∧
    (9 : ℝ) / 100 ≠ 3 / 10 := by
  have hv : ¬ (400 : ℝ) < VELOCITY_THRESHOLD := by
    norm_num [VELOCITY_THRESHOLD]
  have hmem : (⟨"r2-q", false, none⟩ : KeyDef) ∈ ALL_KEYS := by decide
  refine ⟨?_, ?_, by norm_num⟩
  · unfold fixationStartAfter
    rw [if_neg hv]
  · have h1 := scanDecay_high 400 (scanDecay 400 c7Keys) ⟨"r2-q", false, none⟩ hmem hv
    have h2 := scanDecay_high 400 c7Keys ⟨"r2-q", false, none⟩ hmem hv
    dsimp only at h1 h2
    rw [h1, h2]
    norm_num [c7Keys]

/-- C7 (amended): on every tick whose classified velocity is at or above the
velocity threshold, whether or not that frame is a transition, the fixation
timer is reset, fixating is false, and every key's interest is multiplied by
the 0.3 decay factor; the decay is reapplied on every consecutive
high-velocity frame. -/
theorem c7_decay_every_fast_frame (now v : ℝ) (fixStart : Option ℝ)
    (ks : String → KeyState) (hv : VELOCITY_THRESHOLD ≤ v) :
    fixationStartAfter now v fixStart = none ∧
    ¬ isFixatingAfter now v fixStart ∧
    (∀ d ∈ ALL_KEYS, (scanDecay v ks d.id).interest = (ks d.id).interest * 0.3) := by
  have hnlt : ¬ v < VELOCITY_THRESHOLD := not_lt.mpr hv
  refine ⟨?_, ?_, ?_⟩
  · unfold fixationStartAfter
    rw [if_neg hnlt]
  · intro hcontra
    exact hnlt hcontra.1
  · intro d hd
    exact scanDecay_high v ks d hd hnlt

/-- C7 witness: the amended behavior at velocity 400 on the keyboard state
with unit interest. -/
theorem c7_witness :
    VELOCITY_THRESHOLD ≤ (400 : ℝ) ∧
    fixationStartAfter 1 400 (some 0) = none ∧
    ¬ isFixatingAfter 1 400 (some 0) ∧
    (∀ d ∈ ALL_KEYS, (scanDecay 400 c7Keys d.id).interest
      = (c7Keys d.id).interest * 0.3) := by
  have hv : VELOCITY_THRESHOLD ≤ (400 : ℝ) := by norm_num [VELOCITY_THRESHOLD]
  have h := c7_decay_every_fast_frame 1 400 (some 0) c7Keys hv
  exact ⟨hv, h.1, h.2.1, h.2.2⟩

-- The out-of-bounds branch of a tick, shared by the bounds-gate claims.

theorem tick_oob_spec (now : ℝ) (g : ℝ × ℝ) (σ : ℝ) (st : EngineState)
    (h : ¬ gazeOnKeyboard st.keys g) :
    (∀ d ∈ ALL_KEYS, ((tick now g σ st).1.keys d.id).interest = 0)
    ∧ (tick now g σ st).1.activeKeyId = none
    ∧ (tick now g σ st).1.previousActiveKey = none
    ∧ (tick now g σ st).1.dwellStart = none
    ∧ (tick now g σ st).2 = none
    ∧ (∀ k, ((tick now g σ st).1.keys k).prior = (st.keys k).prior
        ∧ ((tick now g σ st).1.keys k).selectionCount = (st.keys k).selectionCount
        ∧ ((tick now g σ st).1.keys k).lastPosterior = (st.keys k).lastPosterior
        ∧ ((tick now g σ st).1.keys k).rect = (st.keys k).rect)
    ∧ (tick now g σ st).1.lastGaze = st.lastGaze
    ∧ (tick now g σ st).1.smoothedVelocity = st.smoothedVelocity
    ∧ (tick now g σ st).1.fixationStart = st.fixationStart := by
  have htick : tick now g σ st = (tickOutOfBounds now st, none) := by
    unfold tick
    rw [if_neg h]
  rw [htick]
  unfold tickOutOfBounds
  exact ⟨fun d hd => zeroInterests_mem st.keys d hd, rfl, rfl, rfl, rfl,
    fun k => ⟨zeroInterests_prior st.keys k, zeroInterests_selectionCount st.keys k,
      zeroInterests_lastPosterior st.keys k, zeroInterests_rect st.keys k⟩,
    rfl, rfl, rfl⟩

/-- C8: on a tick whose smoothed gaze point is outside the expanded keyboard
bounds, every key's interest becomes 0, the tracked key and dwell timer are
cleared, no active key is reported, no selection fires, and the rest of the
pipeline is skipped: priors, counts, stored posteriors, cached rectangles,
the velocity state and the fixation timer are all untouched. -/
theorem c8_out_of_bounds (now : ℝ) (g : ℝ × ℝ) (σ : ℝ) (st : EngineState)
    (h : ¬ gazeOnKeyboard st.keys g) :
    (∀ d ∈ ALL_KEYS, ((tick now g σ st).1.keys d.id).interest = 0)
    ∧ (tick now g σ st).1.activeKeyId = none
    ∧ (tick now g σ st).1.previousActiveKey = none
    ∧ (tick now g σ st).1.dwellStart = none
    ∧ (tick now g σ st).2 = none
    ∧ (∀ k, ((tick now g σ st).1.keys k).prior = (st.keys k).prior
        ∧ ((tick now g σ st).1.keys k).selectionCount = (st.keys k).selectionCount
        ∧ ((tick now g σ st).1.keys k).lastPosterior = (st.keys k).lastPosterior
        ∧ ((tick now g σ st).1.keys k).rect = (st.keys k).rect)
    ∧ (tick now g σ st).1.lastGaze = st.lastGaze
    ∧ (tick now g σ st).1.smoothedVelocity = st.smoothedVelocity
    ∧ (tick now g σ st).1.fixationStart = st.fixationStart :=
  tick_oob_spec now g σ st h

/-- C8 witness: with extreme-key rectangles spanning [50, 370] x [50, 370]
after the margin, the gaze point (0, 0) is off-keyboard and a concrete tick
zeroes interest and reports no active key. -/
theorem c8_witness :
    (¬ gazeOnKeyboard c8State.keys (0, 0)) ∧
    ((tick 1 (0, 0) 40 c8State).1.keys ("r3-a")).interest = 0 ∧
    (tick 1 (0, 0) 40 c8State).1.activeKeyId = none ∧
    (tick 1 (0, 0) 40 c8State).2 = none := by
  have hng : ¬ gazeOnKeyboard c8State.keys (0, 0) := by
    intro hcontra
    have h1 : (0 : ℝ) ≥ min (100 : ℝ) 300 - 50 := hcontra.1
    rw [min_def] at h1
    norm_num at h1
  have h := c8_out_of_bounds 1 (0, 0) 40 c8State hng
  exact ⟨hng, h.1 ⟨"r3-a", false, none⟩ (by decide), h.2.1, h.2.2.2.2.1⟩

/-- C10: if the first or the last key of the layout has no cached rectangle,
the gaze is classified as off-keyboard regardless of the gaze position and
of every other key's geometry, so the tick zeroes all interest, reports no
active key, fires no selection, and no inference happens. -/
theorem c10_missing_extreme_rect (now : ℝ) (g : ℝ × ℝ) (σ : ℝ) (st : EngineState)
    (h : (st.keys firstKeyId).rect = none ∨ (st.keys lastKeyId).rect = none) :
    (¬ gazeOnKeyboard st.keys g)
    ∧ (∀ d ∈ ALL_KEYS, ((tick now g σ st).1.keys d.id).interest = 0)
    ∧ (tick now g σ st).1.activeKeyId = none
    ∧ (tick now g σ st).1.previousActiveKey = none
    ∧ (tick now g σ st).1.dwellStart = none
    ∧ (tick now g σ st).2 = none
    ∧ (∀ k, ((tick now g σ st).1.keys k).prior = (st.keys k).prior
        ∧ ((tick now g σ st).1.keys k).selectionCount = (st.keys k).selectionCount
        ∧ ((tick now g σ st).1.keys k).lastPosterior = (st.keys k).lastPosterior) := by
  have hng : ¬ gazeOnKeyboard st.keys g := by
    unfold gazeOnKeyboard
    rcases h with h | h
    · rw [h]
      cases h2 : (st.keys lastKeyId).rect <;> exact fun hf => hf
    · rw [h]
      cases h1 : (st.keys firstKeyId).rect <;> exact fun hf => hf
  have hspec := tick_oob_spec now g σ st hng
  exact ⟨hng, hspec.1, hspec.2.1, hspec.2.2.1, hspec.2.2.2.1, hspec.2.2.2.2.1,
    fun k => ⟨(hspec.2.2.2.2.2.1 k).1, (hspec.2.2.2.2.2.1 k).2.1,
      (hspec.2.2.2.2.2.1 k).2.2.1⟩⟩

/-- C10 witness: a state whose first key has no cached rectangle while every
other key does; the gaze sits at the center of the other keys, yet the tick
treats it as off-keyboard. -/
theorem c10_witness :
    ((c10State.keys firstKeyId).rect = none ∨ (c10State.keys lastKeyId).rect = none) ∧
    (c10State.keys ("r3-a")).rect ≠ none ∧
    (c10State.keys lastKeyId).rect ≠ none ∧
    (¬ gazeOnKeyboard c10State.keys (110, 110)) ∧
    (tick 1 (110, 110) 40 c10State).1.activeKeyId = none ∧
    (tick 1 (110, 110) 40 c10State).2 = none := by
  have hfirst : (c10State.keys firstKeyId).rect = none := by
    unfold c10State
    dsimp only
    rw [if_pos rfl]
    rfl
  have hra : (c10State.keys ("r3-a")).rect ≠ none := by
    unfold c10State
    dsimp only
    rw [if_neg (by decide : ¬ ("r3-a" : String) = firstKeyId)]
    simp
  have hlast : (c10State.keys lastKeyId).rect ≠ none := by
    unfold c10State
    dsimp only
    rw [if_neg (by decide : ¬ lastKeyId = firstKeyId)]
    simp
  have h := c10_missing_extreme_rect 1 (110, 110) 40 c10State (Or.inl hfirst)
  exact ⟨Or.inl hfirst, hra, hlast, h.1, h.2.2.1, h.2.2.2.2.2.1⟩

/-- C9: with the tracked key r3-a holding posterior 1 on every tick, a
constant frame delta of 1/60 s and fixating throughout, interest grows by
1/60 per tick, reaches the 0.6 selection threshold exactly at tick 36, and
the selection check fires on tick 36 and not before. -/
theorem c9_selection_at_36 :
    (∀ n : ℕ, (scenarioRun n ("r3-a")).interest = (n : ℝ) * (1 / 60))
    ∧ (∀ n : ℕ, ((scenarioRun n ("r3-a")).interest ≥ SELECTION_THRESHOLD ↔ 36 ≤ n))
    ∧ (∀ n : ℕ,
        ((selectionDispatch { initState with keys := scenarioRun n }
            (some ("r3-a")) True).2 = some ("r3-a") ↔ 36 ≤ n)) := by
  have hmem : (⟨"r3-a", false, none⟩ : KeyDef) ∈ ALL_KEYS := by decide
  have hstep : ∀ n : ℕ, (scenarioRun (n + 1) ("r3-a")).interest
      = (scenarioRun n ("r3-a")).interest + 1 / 60 := by
    intro n
    show (accumulateInterest True (1 / 60) (some ("r3-a")) scenarioPosterior
      (scenarioRun n) ("r3-a")).interest = _
    unfold accumulateInterest
    rw [overKeys_apply_mem (scenarioRun n) _ ⟨"r3-a", false, none⟩ hmem]
    rw [if_pos ⟨trivial, rfl⟩]
    have hpost : scenarioPosterior ("r3-a") = 1 := by
      unfold scenarioPosterior
      rw [if_pos rfl]
    dsimp only
    rw [hpost, mul_one]
  have hform : ∀ n : ℕ, (scenarioRun n ("r3-a")).interest = (n : ℝ) * (1 / 60) := by
    intro n
    induction n with
    | zero =>
      show (initKeys ("r3-a")).interest = ((0 : ℕ) : ℝ) * (1 / 60)
      show (0 : ℝ) = ((0 : ℕ) : ℝ) * (1 / 60)
      norm_num
    | succ n ih =>
      rw [hstep n, ih]
      push_cast
      ring
  have hiff : ∀ n : ℕ,
      ((scenarioRun n ("r3-a")).interest ≥ SELECTION_THRESHOLD ↔ 36 ≤ n) := by
    intro n
    rw [hform n]
    unfold SELECTION_THRESHOLD
    constructor
    · intro h
      have h36 : (36 : ℝ) ≤ (n : ℝ) := by nlinarith
      exact_mod_cast h36
    · intro h
      have h36 : (36 : ℝ) ≤ (n : ℝ) := by exact_mod_cast h
      nlinarith
  refine ⟨hform, hiff, ?_⟩
  intro n
  unfold selectionDispatch
  dsimp only
  by_cases h : (scenarioRun n ("r3-a")).interest ≥ SELECTION_THRESHOLD
  · rw [if_pos ⟨trivial, h, by decide⟩]
    constructor
    · intro _
      exact (hiff n).mp h
    · intro _
      rfl
  · rw [if_neg (fun hc => h hc.2.1)]
    constructor
    · intro hcon
      exact absurd hcon (by simp)
    · intro h36
      exact absurd ((hiff n).mpr h36) h
